import Mathlib

/-!
A shallow embedding of the arcade2d world simulation kernel.

The embedding follows the decorator-era kernel (class World in world.ts with
AbstractWorldObject, WorldObjectRef and WorldQuery) and, for the component
mount table and the save snapshot, the prefab-era WorldObject and
ComponentMountable.

Modelling conventions:
- JavaScript Map and Set become insertion-ordered association lists with
  first-occurrence lookup (mapGet / mapSet / mapDelete / setAdd).
- Worlds and world objects are named by natural numbers; the global state Sys
  carries every world's private state and every object's private fields
  (its _id, its _world back-reference, its position, and its decorator
  metadata queryable / tags, which the kernel never mutates).
- Lifecycle hooks (onAdd, onRemove, onPurge, step) are modelled as observers
  that may throw but do not mutate kernel state: a function of type Throws
  says which hook invocations raise.  A hook invocation returns
  Except Unit Unit; the kernel's try/catch blocks become the single dispatch
  function, which always continues and records what happened as a list of
  events (hook invoked / error handler invoked / id assigned).
- WorldObjectRef stores the creating world and the captured id; in the source
  it also aliases the world's live Map, so target is modelled as reading the
  current live table of its world through the global state.
-/

namespace ArcadeWorld

/-- Insertion-ordered association list modelling a JavaScript Map.
Lookup returns the value of the first binding with the given key. -/
def mapGet {κ α : Type} [DecidableEq κ] : List (κ × α) → κ → Option α
  | [], _ => none
  | (k', v) :: t, k => if k' = k then some v else mapGet t k

/-- JavaScript Map.set: replace the binding in place when the key is present,
otherwise append a new binding at the end (insertion order preserved). -/
def mapSet {κ α : Type} [DecidableEq κ] : List (κ × α) → κ → α → List (κ × α)
  | [], k, v => [(k, v)]
  | (k', v') :: t, k, v =>
    if k' = k then (k, v) :: t else (k', v') :: mapSet t k v

/-- JavaScript Map.delete: drop the first binding with the given key. -/
def mapDelete {κ α : Type} [DecidableEq κ] : List (κ × α) → κ → List (κ × α)
  | [], _ => []
  | (k', v') :: t, k => if k' = k then t else (k', v') :: mapDelete t k

/-- The keys of an association list, in insertion order. -/
def mapKeys {κ α : Type} (l : List (κ × α)) : List κ := l.map Prod.fst

/-- JavaScript Set.add for sets of numbers: append when not yet present. -/
def setAdd (l : List Nat) (k : Nat) : List Nat := if k ∈ l then l else l ++ [k]

/-- The four lifecycle hook kinds of the kernel, each with its own
configurable error handler in WorldOptions. -/
inductive HookKind
  | hadd
  | hremove
  | hpurge
  | hstep
deriving Repr, DecidableEq

/-- Observable events of a kernel operation: a hook was invoked, a per-kind
error handler was invoked because the hook threw, or an id was assigned by a
world to an object at admission. -/
inductive Event
  | hooked (k : HookKind) (o : Nat)
  | handled (k : HookKind) (o : Nat)
  | assigned (w : Nat) (i : Nat) (o : Nat)
deriving Repr, DecidableEq

/-- Which hook invocations throw.  Arguments: hook kind, object name. -/
abbrev Throws := HookKind → Nat → Bool

/-- Invoking one hook: it either returns normally or throws. -/
def hookRun (t : Throws) (k : HookKind) (o : Nat) : Except Unit Unit :=
  if t k o then Except.error () else Except.ok ()

/-- The kernel's try/catch around a single hook invocation (the four
try/catch blocks in World.add, World.remove, World.purge and World.step).
The hook is invoked; when it throws, the exception is caught and the
configured per-kind error handler runs instead of the exception
propagating. -/
def dispatch (t : Throws) (k : HookKind) (o : Nat) : List Event :=
  match hookRun t k o with
  | Except.ok _ => [Event.hooked k o]
  | Except.error _ => [Event.hooked k o, Event.handled k o]

/-- StepInfo produced by World.step. -/
structure StepInfo where
  previous : Nat
  current : Nat
  delta : Nat
deriving Repr, DecidableEq

/-- Private state of an AbstractWorldObject: _id (0 until first admission),
_world (the back-reference, none when never admitted or already removed),
its position vector, and its immutable decorator metadata (queryable flag
and tag list, from the WorldObject class decorator). -/
structure ObjState where
  oid : Nat := 0
  oworld : Option Nat := none
  pos : Int × Int := (0, 0)
  queryable : Bool := false
  tags : List String := []
deriving Repr, DecidableEq

/-- Private state of a World: lastStep, lastId, the live object table
(Map from id to object, insertion ordered) and the pending-removal id set. -/
structure WorldState where
  lastStep : Option Nat := none
  lastId : Nat := 0
  objects : List (Nat × Nat) := []
  removed : List Nat := []
deriving Repr, DecidableEq

/-- The global state: every world's state and every object's state, both
keyed by name. -/
structure Sys where
  worlds : List (Nat × WorldState) := []
  objs : List (Nat × ObjState) := []
deriving Repr, DecidableEq

/-- World.add.  When the object has no world back-reference: allocate the
next id (getNextId increments lastId and returns it), store the object in
the live table, optionally overwrite its position, then inside a try/catch
run __register (set back-reference and id; never throws) and the onAdd hook.
Otherwise the call is a no-op returning the object unchanged. -/
def World.add (t : Throws) (w o : Nat) (p : Option (Int × Int)) (s : Sys) :
    Sys × List Event :=
  match mapGet s.objs o, mapGet s.worlds w with
  | some os, some ws =>
    if os.oworld = none then
      let i := ws.lastId + 1
      let ws' : WorldState :=
        { ws with lastId := i, objects := mapSet ws.objects i o }
      let os' : ObjState :=
        { os with oid := i, oworld := some w, pos := p.getD os.pos }
      ({ worlds := mapSet s.worlds w ws', objs := mapSet s.objs o os' },
        Event.assigned w i o :: dispatch t HookKind.hadd o)
    else (s, [])
  | _, _ => (s, [])

/-- World.remove.  When the object's back-reference is this world: record its
id in the pending-removal set, then inside a try/catch run __deregister
(clear the back-reference immediately; never throws) and the onRemove hook.
Otherwise the call is a complete no-op.  The branch where the object claims
a world that is not present in the global state cannot arise for well-formed
states and is a no-op. -/
def World.remove (t : Throws) (w o : Nat) (s : Sys) : Sys × List Event :=
  match mapGet s.objs o with
  | some os =>
    if os.oworld = some w then
      match mapGet s.worlds w with
      | some ws =>
        let ws' : WorldState := { ws with removed := setAdd ws.removed os.oid }
        let os' : ObjState := { os with oworld := none }
        ({ worlds := mapSet s.worlds w ws', objs := mapSet s.objs o os' },
          dispatch t HookKind.hremove o)
      | none => (s, [])
    else (s, [])
  | none => (s, [])

/-- The loop body of World.purge: walk the pending ids in insertion order;
for each id still present in the live table, delete it from the table and run
the onPurge hook inside a try/catch.  Returns the final table and the
events. -/
def purgeLoop (t : Throws) : List Nat → List (Nat × Nat) →
    List (Nat × Nat) × List Event
  | [], tbl => (tbl, [])
  | i :: rest, tbl =>
    match mapGet tbl i with
    | some o =>
      let r := purgeLoop t rest (mapDelete tbl i)
      (r.1, dispatch t HookKind.hpurge o ++ r.2)
    | none => purgeLoop t rest tbl

/-- World.purge: run the purge loop over the pending set, then clear the
pending set. -/
def World.purge (t : Throws) (w : Nat) (s : Sys) : Sys × List Event :=
  match mapGet s.worlds w with
  | some ws =>
    let r := purgeLoop t ws.removed ws.objects
    let ws' : WorldState := { ws with objects := r.1, removed := [] }
    ({ s with worlds := mapSet s.worlds w ws' }, r.2)
  | none => (s, [])

/-- The object-update loop of World.step: run every live object's step hook,
in live-table iteration order, each inside its own try/catch. -/
def stepLoop (t : Throws) : List (Nat × Nat) → List Event
  | [] => []
  | (_, o) :: rest => dispatch t HookKind.hstep o ++ stepLoop t rest

/-- World.step: compute the StepInfo (delta is zero on the very first call),
run every live object's step hook, then purge (inlined body of World.purge on
the same world state), then record lastStep.  Hooks do not mutate kernel
state in this model, so the purge reads the same pending set the world had on
entry. -/
def World.step (t : Throws) (w : Nat) (now : Nat) (s : Sys) :
    Sys × Option StepInfo × List Event :=
  match mapGet s.worlds w with
  | some ws =>
    let info : StepInfo :=
      { previous := ws.lastStep.getD now, current := now,
        delta := now - ws.lastStep.getD now }
    let evs := stepLoop t ws.objects
    let r := purgeLoop t ws.removed ws.objects
    let ws' : WorldState :=
      { ws with objects := r.1, removed := [], lastStep := some now }
    ({ s with worlds := mapSet s.worlds w ws' }, some info, evs ++ r.2)
  | none => (s, none, [])

/-- A WorldObjectRef: the creating world and the captured id.  In the source
the ref also aliases the creating world's live Map, so target reads the
current live table of that world. -/
structure WorldObjectRef where
  world : Nat
  id : Nat
deriving Repr, DecidableEq

/-- World.createRef: throws when the target's world back-reference is not
this world (also when the object does not exist at all, whose back-reference
cannot be this world); otherwise returns a ref bound to this world's live
table, this world and the target's id. -/
def World.createRef (w o : Nat) (s : Sys) : Except Unit WorldObjectRef :=
  match mapGet s.objs o with
  | some os =>
    if os.oworld = some w then Except.ok { world := w, id := os.oid }
    else Except.error ()
  | none => Except.error ()

/-- WorldObjectRef.target: re-read the live table of the ref's world by the
captured id, and yield the found object only when that object's world
back-reference still equals the ref's world; otherwise null. -/
def WorldObjectRef.target (r : WorldObjectRef) (s : Sys) : Option Nat :=
  match mapGet s.worlds r.world with
  | some ws =>
    match mapGet ws.objects r.id with
    | some o =>
      match mapGet s.objs o with
      | some os => if os.oworld = some r.world then some o else none
      | none => none
    | none => none
  | none => none

/-- A WorldQuery constraint: a pure predicate over a candidate object's
state. -/
abbrev WorldQueryConstraint := ObjState → Bool

/-- tagConstraintFactory: matches when the tag occurs in the object's
decorator tag list. -/
def tagConstraintFactory (tag : String) : WorldQueryConstraint :=
  fun os => os.tags.contains tag

/-- WorldQuery.matches: logical AND over all constraints, short-circuiting
on the first failing constraint. -/
def wqMatches (cs : List WorldQueryConstraint) (os : ObjState) : Bool :=
  cs.all fun c => c os

/-- WorldQuery.getQueryable: the objects of the live table, in table order,
whose decorator metadata marks them queryable (paired with their state). -/
def getQueryable (s : Sys) : List (Nat × Nat) → List (Nat × ObjState)
  | [] => []
  | (_, o) :: rest =>
    match mapGet s.objs o with
    | some os =>
      if os.queryable then (o, os) :: getQueryable s rest
      else getQueryable s rest
    | none => getQueryable s rest

/-- The scan of WorldQuery.first over the queryable candidates: the first
match is turned into a ref through World.createRef (whose throw would
propagate to the caller of first). -/
def wqFirstLoop (cs : List WorldQueryConstraint) (w : Nat) (s : Sys) :
    List (Nat × ObjState) → Except Unit (Option WorldObjectRef)
  | [] => Except.ok none
  | (o, os) :: rest =>
    if wqMatches cs os then
      match World.createRef w o s with
      | Except.ok r => Except.ok (some r)
      | Except.error e => Except.error e
    else wqFirstLoop cs w s rest

/-- WorldQuery.first. -/
def wqFirst (cs : List WorldQueryConstraint) (w : Nat) (s : Sys) :
    Except Unit (Option WorldObjectRef) :=
  match mapGet s.worlds w with
  | some ws => wqFirstLoop cs w s (getQueryable s ws.objects)
  | none => Except.ok none

/-- The scan of WorldQuery.all: every match contributes a ref, preserving
scan order. -/
def wqAllLoop (cs : List WorldQueryConstraint) (w : Nat) (s : Sys) :
    List (Nat × ObjState) → Except Unit (List WorldObjectRef)
  | [] => Except.ok []
  | (o, os) :: rest =>
    if wqMatches cs os then
      match World.createRef w o s with
      | Except.ok r =>
        match wqAllLoop cs w s rest with
        | Except.ok l => Except.ok (r :: l)
        | Except.error e => Except.error e
      | Except.error e => Except.error e
    else wqAllLoop cs w s rest

/-- WorldQuery.all. -/
def wqAll (cs : List WorldQueryConstraint) (w : Nat) (s : Sys) :
    Except Unit (List WorldObjectRef) :=
  match mapGet s.worlds w with
  | some ws => wqAllLoop cs w s (getQueryable s ws.objects)
  | none => Except.ok []

/-- A mounted component, identified by its concrete constructor (modelled by
its constructor name, the runtime type identity used as the mount key). -/
structure Component where
  ctype : String
deriving Repr, DecidableEq

/-- The mount table of a ComponentMountable owner: Map from constructor
identity to the single mounted instance of that type. -/
abbrev MountTable := List (String × Component)

/-- ComponentMountable.hasComponent. -/
def hasComponent (tbl : MountTable) (ty : String) : Bool :=
  (mapGet tbl ty).isSome

/-- The composition-time error taxonomy entry raised by addComponent. -/
inductive CompError
  | duplicateComponent
deriving Repr, DecidableEq

/-- ComponentMountable.addComponent: throw DuplicateComponent when an
instance of the same concrete type is already mounted (the throw happens
before any mutation, so the table is returned unchanged in that case);
otherwise register the component under its constructor identity. -/
def addComponent (tbl : MountTable) (c : Component) :
    MountTable × Option CompError :=
  if hasComponent tbl c.ctype then (tbl, some CompError.duplicateComponent)
  else (mapSet tbl c.ctype c, none)

/-- An opaque JSON-shaped payload value as produced by a component save hook,
with jnull standing for the JavaScript null literal. -/
inductive JValue
  | jnull
  | jstr (s : String)
deriving Repr, DecidableEq

/-- A component as seen by WorldObject.save: its constructor name and its
optional save hook, modelled by the payload the hook would return (none when
the component exposes no save hook). -/
structure SaveComponent where
  cname : String
  saveHook : Option JValue
deriving Repr, DecidableEq

/-- The prefab-era WorldObject as far as save is concerned: its prefab key,
its position (as the tuple position.toTuple would yield) and its mount table
in insertion order. -/
structure PrefabObject where
  key : String
  pos : Int × Int
  comps : List SaveComponent
deriving Repr, DecidableEq

/-- WorldObjectSavedState: key, position tuple, and the component payload
record in mount order. -/
structure WorldObjectSavedState where
  k : String
  p : Int × Int
  c : List (String × JValue)
deriving Repr, DecidableEq

/-- WorldObject.save: a pure read producing the prefab key, the position
tuple, and one record entry per mounted component, keyed by constructor name,
holding the component's save output when it has a save hook and the null
literal otherwise. -/
def PrefabObject.save (o : PrefabObject) : WorldObjectSavedState :=
  { k := o.key
    p := o.pos
    c := o.comps.map fun comp =>
      (comp.cname,
        match comp.saveHook with
        | some v => v
        | none => JValue.jnull) }

/-- The objects whose hook of the given kind was invoked (and ran to
completion or threw into the kernel's catch), in invocation order. -/
def hookedOf (k : HookKind) (evs : List Event) : List Nat :=
  evs.filterMap fun e =>
    match e with
    | Event.hooked k' o => if k' = k then some o else none
    | _ => none

/-- The objects whose per-kind error handler was invoked, in order. -/
def handledOf (k : HookKind) (evs : List Event) : List Nat :=
  evs.filterMap fun e =>
    match e with
    | Event.handled k' o => if k' = k then some o else none
    | _ => none

/-- The ids assigned by the given world, in assignment order. -/
def assignedIds (w : Nat) (evs : List Event) : List Nat :=
  evs.filterMap fun e =>
    match e with
    | Event.assigned w' i _ => if w' = w then some i else none
    | _ => none

/-- One externally invokable kernel operation. -/
inductive Op
  | opAdd (w o : Nat) (p : Option (Int × Int))
  | opRemove (w o : Nat)
  | opPurge (w : Nat)
  | opStep (w now : Nat)
deriving Repr, DecidableEq

/-- Run one operation. -/
def runOp (t : Throws) (s : Sys) : Op → Sys × List Event
  | Op.opAdd w o p => World.add t w o p s
  | Op.opRemove w o => World.remove t w o s
  | Op.opPurge w => World.purge t w s
  | Op.opStep w now =>
    let r := World.step t w now s
    (r.1, r.2.2)

/-- Run a sequence of operations, concatenating the event traces. -/
def runOps (t : Throws) (s : Sys) : List Op → Sys × List Event
  | [] => (s, [])
  | op :: rest =>
    let r := runOp t s op
    let r2 := runOps t r.1 rest
    (r2.1, r.2 ++ r2.2)

/-- Per-world invariant: live-table keys are pairwise distinct and every key
is bounded by lastId. -/
def WInv (ws : WorldState) : Prop :=
  (mapKeys ws.objects).Nodup ∧ ∀ i ∈ mapKeys ws.objects, i ≤ ws.lastId

/-- Global invariant: every world satisfies its per-world invariant. -/
def SysInv (s : Sys) : Prop :=
  ∀ w ws, mapGet s.worlds w = some ws → WInv ws

/-- The lastId counter of a world (0 when the world does not exist). -/
def wLast (s : Sys) (w : Nat) : Nat :=
  match mapGet s.worlds w with
  | some ws => ws.lastId
  | none => 0

/-- The Throws assignment under which no hook ever throws. -/
def noThrow : Throws := fun _ _ => false

/-- A small concrete state used by the witnesses: world 1 exists and is
empty, object 5 exists, is unadmitted, and carries queryable metadata with
the tag x; object 6 exists and is not queryable. -/
def wSys : Sys :=
  { worlds := [(1, {})]
    objs := [(5, { queryable := true, tags := ["x"] }),
             (6, { queryable := false, tags := ["x"] })] }

/-- A concrete state with two live objects in world 1 (ids 1 and 2 for
objects named 5 and 6), object 6 already removed (back-reference cleared,
id 2 pending purge). -/
def wSys2 : Sys :=
  { worlds := [(1, { lastId := 2, objects := [(1, 5), (2, 6)],
                     removed := [2] })]
    objs := [(5, { oid := 1, oworld := some 1, queryable := true,
                   tags := ["x"] }),
             (6, { oid := 2, oworld := none, queryable := false,
                   tags := ["x"] })] }

/-- A Throws assignment under which every hook of object 5 throws. -/
def tOne : Throws := fun _ o => o == 5

/-- A well-formed concrete state for query evaluation: world 1 owns object 5
(id 1, queryable, tag x) and object 6 (id 2, not queryable, tag x). -/
def wSys3 : Sys :=
  { worlds := [(1, { lastId := 2, objects := [(1, 5), (2, 6)] })]
    objs := [(5, { oid := 1, oworld := some 1, queryable := true,
                   tags := ["x"] }),
             (6, { oid := 2, oworld := some 1, queryable := false,
                   tags := ["x"] })] }

/-- A concrete prefab-era object used for concrete evaluations: one component
whose save hook yields a payload, and one component exposing no save hook. -/
def sampleObject : PrefabObject :=
  { key := "example"
    pos := (150, 200)
    comps := [{ cname := "Example", saveHook := some (JValue.jstr "hello") },
              { cname := "Silent", saveHook := none }] }

/-! ### Association-list lemmas -/

theorem mapKeys_cons {κ α : Type} (k : κ) (v : α) (t : List (κ × α)) :
    mapKeys ((k, v) :: t) = k :: mapKeys t := rfl

theorem mem_mapKeys {κ α : Type} (l : List (κ × α)) (i : κ) :
    i ∈ mapKeys l ↔ ∃ v, (i, v) ∈ l := by
  constructor
  · intro h
    obtain ⟨p, hm, hf⟩ := List.mem_map.mp h
    refine ⟨p.2, ?_⟩
    rw [← hf]
    exact hm
  · rintro ⟨v, hv⟩
    exact List.mem_map.mpr ⟨(i, v), hv, rfl⟩

theorem mapGet_set_self {κ α : Type} [DecidableEq κ] (l : List (κ × α))
    (k : κ) (v : α) : mapGet (mapSet l k v) k = some v := by
  induction l with
  | nil => simp [mapSet, mapGet]
  | cons hd t ih =>
    obtain ⟨k', v'⟩ := hd
    by_cases hk : k' = k
    · simp [mapSet, hk, mapGet]
    · simp [mapSet, hk, mapGet, ih]

theorem mapGet_set_ne {κ α : Type} [DecidableEq κ] (l : List (κ × α))
    (k k₂ : κ) (v : α) (h : k₂ ≠ k) :
    mapGet (mapSet l k v) k₂ = mapGet l k₂ := by
  induction l with
  | nil => simp [mapSet, mapGet, Ne.symm h]
  | cons hd t ih =>
    obtain ⟨k', v'⟩ := hd
    by_cases hk : k' = k
    · subst hk
      simp [mapSet, mapGet, Ne.symm h]
    · simp only [mapSet, if_neg hk, mapGet]
      by_cases hk2 : k' = k₂
      · simp [hk2]
      · simp [hk2, ih]

theorem mapSet_eq_of_get {κ α : Type} [DecidableEq κ] (l : List (κ × α))
    (k : κ) (v : α) (h : mapGet l k = some v) : mapSet l k v = l := by
  induction l with
  | nil => simp [mapGet] at h
  | cons hd t ih =>
    obtain ⟨k', v'⟩ := hd
    by_cases hk : k' = k
    · subst hk
      simp [mapGet] at h
      simp [mapSet, h]
    · simp [mapGet, hk] at h
      simp [mapSet, hk, ih h]

theorem mapGet_mem {κ α : Type} [DecidableEq κ] (l : List (κ × α))
    (k : κ) (v : α) (h : mapGet l k = some v) : (k, v) ∈ l := by
  induction l with
  | nil => simp [mapGet] at h
  | cons hd t ih =>
    obtain ⟨k', v'⟩ := hd
    by_cases hk : k' = k
    · subst hk
      simp [mapGet] at h
      simp [h]
    · simp [mapGet, hk] at h
      simp [ih h]

theorem mapGet_eq_none_iff {κ α : Type} [DecidableEq κ] (l : List (κ × α))
    (k : κ) : mapGet l k = none ↔ k ∉ mapKeys l := by
  induction l with
  | nil => simp [mapGet, mapKeys]
  | cons hd t ih =>
    obtain ⟨k', v'⟩ := hd
    rw [mapKeys_cons]
    by_cases hk : k' = k
    · subst hk
      simp [mapGet]
    · rw [mapGet, if_neg hk]
      simp only [List.mem_cons, not_or]
      constructor
      · intro h
        exact ⟨fun he => hk he.symm, ih.mp h⟩
      · intro h
        exact ih.mpr h.2

theorem mapGet_of_mem_nodup {κ α : Type} [DecidableEq κ] (l : List (κ × α))
    (k : κ) (v : α) (hn : (mapKeys l).Nodup) (hm : (k, v) ∈ l) :
    mapGet l k = some v := by
  induction l with
  | nil => simp at hm
  | cons hd t ih =>
    obtain ⟨k', v'⟩ := hd
    rw [mapKeys_cons] at hn
    have hn' := List.nodup_cons.mp hn
    rcases List.mem_cons.mp hm with he | ht
    · have h1 : k = k' := congrArg Prod.fst he
      have h2 : v = v' := congrArg Prod.snd he
      subst h1
      subst h2
      simp [mapGet]
    · have hk : k' ≠ k := by
        intro he2
        subst he2
        exact hn'.1 ((mem_mapKeys t k').mpr ⟨v, ht⟩)
      rw [mapGet, if_neg hk]
      exact ih hn'.2 ht

theorem mem_keys_set {κ α : Type} [DecidableEq κ] (l : List (κ × α))
    (k i : κ) (v : α) (h : i ∈ mapKeys (mapSet l k v)) :
    i ∈ mapKeys l ∨ i = k := by
  induction l with
  | nil =>
    simp [mapSet, mapKeys] at h
    exact Or.inr h
  | cons hd t ih =>
    obtain ⟨k', v'⟩ := hd
    by_cases hk : k' = k
    · subst hk
      rw [mapSet, if_pos rfl, mapKeys_cons] at h
      rw [mapKeys_cons]
      rcases List.mem_cons.mp h with he | ht
      · exact Or.inr he
      · exact Or.inl (List.mem_cons.mpr (Or.inr ht))
    · rw [mapSet, if_neg hk, mapKeys_cons] at h
      rw [mapKeys_cons]
      rcases List.mem_cons.mp h with he | ht
      · exact Or.inl (List.mem_cons.mpr (Or.inl he))
      · rcases ih ht with h2 | h2
        · exact Or.inl (List.mem_cons.mpr (Or.inr h2))
        · exact Or.inr h2

theorem nodup_keys_set {κ α : Type} [DecidableEq κ] (l : List (κ × α))
    (k : κ) (v : α) (hn : (mapKeys l).Nodup) :
    (mapKeys (mapSet l k v)).Nodup := by
  induction l with
  | nil => simp [mapSet, mapKeys]
  | cons hd t ih =>
    obtain ⟨k', v'⟩ := hd
    rw [mapKeys_cons] at hn
    have hn' := List.nodup_cons.mp hn
    by_cases hk : k' = k
    · subst hk
      rw [mapSet, if_pos rfl, mapKeys_cons]
      exact List.nodup_cons.mpr hn'
    · rw [mapSet, if_neg hk, mapKeys_cons]
      refine List.nodup_cons.mpr ⟨?_, ih hn'.2⟩
      intro hmem
      rcases mem_keys_set t k k' v hmem with h2 | h2
      · exact hn'.1 h2
      · exact hk h2

theorem mapDelete_sublist {κ α : Type} [DecidableEq κ] (l : List (κ × α))
    (k : κ) : List.Sublist (mapDelete l k) l := by
  induction l with
  | nil => simp [mapDelete]
  | cons hd t ih =>
    obtain ⟨k', v'⟩ := hd
    by_cases hk : k' = k
    · rw [mapDelete, if_pos hk]
      exact List.sublist_cons_self (k', v') t
    · rw [mapDelete, if_neg hk]
      exact List.Sublist.cons₂ (k', v') ih

theorem nodup_keys_delete {κ α : Type} [DecidableEq κ] (l : List (κ × α))
    (k : κ) (hn : (mapKeys l).Nodup) : (mapKeys (mapDelete l k)).Nodup :=
  List.Nodup.sublist (List.Sublist.map Prod.fst (mapDelete_sublist l k)) hn

theorem mapGet_delete_self {κ α : Type} [DecidableEq κ] (l : List (κ × α))
    (k : κ) (hn : (mapKeys l).Nodup) : mapGet (mapDelete l k) k = none := by
  induction l with
  | nil => simp [mapDelete, mapGet]
  | cons hd t ih =>
    obtain ⟨k', v'⟩ := hd
    rw [mapKeys_cons] at hn
    have hn' := List.nodup_cons.mp hn
    by_cases hk : k' = k
    · subst hk
      rw [mapDelete, if_pos rfl, mapGet_eq_none_iff]
      exact hn'.1
    · rw [mapDelete, if_neg hk, mapGet, if_neg hk]
      exact ih hn'.2

theorem mapGet_delete_ne {κ α : Type} [DecidableEq κ] (l : List (κ × α))
    (k k₂ : κ) (h : k₂ ≠ k) : mapGet (mapDelete l k) k₂ = mapGet l k₂ := by
  induction l with
  | nil => simp [mapDelete]
  | cons hd t ih =>
    obtain ⟨k', v'⟩ := hd
    by_cases hk : k' = k
    · subst hk
      rw [mapDelete, if_pos rfl]
      simp [mapGet, Ne.symm h]
    · rw [mapDelete, if_neg hk]
      simp only [mapGet]
      by_cases hk2 : k' = k₂
      · simp [hk2]
      · simp [hk2, ih]

/-! ### Event-filter lemmas -/

theorem hookedOf_append (k : HookKind) (l1 l2 : List Event) :
    hookedOf k (l1 ++ l2) = hookedOf k l1 ++ hookedOf k l2 :=
  List.filterMap_append ..

theorem handledOf_append (k : HookKind) (l1 l2 : List Event) :
    handledOf k (l1 ++ l2) = handledOf k l1 ++ handledOf k l2 :=
  List.filterMap_append ..

theorem assignedIds_append (w : Nat) (l1 l2 : List Event) :
    assignedIds w (l1 ++ l2) = assignedIds w l1 ++ assignedIds w l2 :=
  List.filterMap_append ..

theorem hookedOf_dispatch_self (t : Throws) (k : HookKind) (o : Nat) :
    hookedOf k (dispatch t k o) = [o] := by
  unfold dispatch hookRun
  by_cases h : t k o <;> simp [h, hookedOf]

theorem hookedOf_dispatch_ne (t : Throws) (k k' : HookKind) (o : Nat)
    (h : k' ≠ k) : hookedOf k' (dispatch t k o) = [] := by
  unfold dispatch hookRun
  by_cases ht : t k o <;> simp [ht, hookedOf, Ne.symm h]

theorem handledOf_dispatch_self (t : Throws) (k : HookKind) (o : Nat) :
    handledOf k (dispatch t k o) = if t k o then [o] else [] := by
  unfold dispatch hookRun
  by_cases h : t k o <;> simp [h, handledOf]

theorem handledOf_dispatch_ne (t : Throws) (k k' : HookKind) (o : Nat)
    (h : k' ≠ k) : handledOf k' (dispatch t k o) = [] := by
  unfold dispatch hookRun
  by_cases ht : t k o <;> simp [ht, handledOf, Ne.symm h]

theorem assignedIds_dispatch (t : Throws) (w : Nat) (k : HookKind) (o : Nat) :
    assignedIds w (dispatch t k o) = [] := by
  unfold dispatch hookRun
  by_cases ht : t k o <;> simp [ht, assignedIds]

/-! ### Set and purge-loop lemmas -/

theorem mem_setAdd_self (l : List Nat) (k : Nat) : k ∈ setAdd l k := by
  unfold setAdd
  split
  · assumption
  · simp

theorem purgeLoop_get_none (t : Throws) (p : List Nat)
    (tbl : List (Nat × Nat)) (k : Nat) (h : mapGet tbl k = none) :
    mapGet (purgeLoop t p tbl).1 k = none := by
  induction p generalizing tbl with
  | nil => simpa [purgeLoop] using h
  | cons i rest ih =>
    cases hg : mapGet tbl i with
    | none =>
      unfold purgeLoop
      rw [hg]
      exact ih tbl h
    | some o =>
      unfold purgeLoop
      rw [hg]
      exact ih (mapDelete tbl i) (by
        rw [mapGet_eq_none_iff] at h ⊢
        intro hm
        exact h (((mapDelete_sublist tbl i).map Prod.fst).subset hm))

theorem purgeLoop_mem_none (t : Throws) (p : List Nat)
    (tbl : List (Nat × Nat)) (k : Nat) (hn : (mapKeys tbl).Nodup)
    (hk : k ∈ p) : mapGet (purgeLoop t p tbl).1 k = none := by
  induction p generalizing tbl with
  | nil => simp at hk
  | cons i rest ih =>
    cases hg : mapGet tbl i with
    | none =>
      unfold purgeLoop
      rw [hg]
      rcases List.mem_cons.mp hk with h1 | h1
      · subst h1
        exact purgeLoop_get_none t rest tbl k hg
      · exact ih tbl hn h1
    | some o =>
      unfold purgeLoop
      rw [hg]
      rcases List.mem_cons.mp hk with h1 | h1
      · subst h1
        exact purgeLoop_get_none t rest _ k (mapGet_delete_self tbl k hn)
      · exact ih (mapDelete tbl i) (nodup_keys_delete tbl i hn) h1

/-! ### Claim theorems -/

/-- C10: Calling remove(o) on a World that does not own o (o's world
back-reference is not this kernel, including after o was already removed) is
a complete no-op: the global state (pending-removal set, live table, and o's
own id and back-reference included) is returned unchanged, no onRemove hook
fires, no handler runs, and no error is raised. -/
theorem c10_remove_unowned_noop (t : Throws) (w o : Nat) (s : Sys)
    (os : ObjState) (ho : mapGet s.objs o = some os)
    (hno : os.oworld ≠ some w) :
    World.remove t w o s = (s, []) := by
  unfold World.remove
  rw [ho]
  simp [hno]

theorem c10_remove_unowned_noop_witness :
    World.remove noThrow 1 5 wSys = (wSys, []) :=
  c10_remove_unowned_noop noThrow 1 5 wSys
    { queryable := true, tags := ["x"] } rfl (by decide)

/-- C4: An object is exclusively owned by at most one world at a time: when
o is owned by w, calling w.add(o) again is a complete no-op (no new id, live
table unchanged, onAdd not re-invoked, the object returned unchanged), and
calling w2.add(o) on any world w2 while o is still owned by w likewise
registers nothing and transfers no ownership. -/
theorem c4_exclusive_ownership (t : Throws) (w w2 o : Nat)
    (p p2 : Option (Int × Int)) (s : Sys) (os : ObjState)
    (ho : mapGet s.objs o = some os) (hown : os.oworld = some w) :
    World.add t w o p s = (s, []) ∧ World.add t w2 o p2 s = (s, []) := by
  have key : ∀ w' : Nat, ∀ p' : Option (Int × Int),
      World.add t w' o p' s = (s, []) := by
    intro w' p'
    unfold World.add
    rw [ho]
    cases hgw : mapGet s.worlds w' with
    | none => rfl
    | some ws => simp [hown]
  exact ⟨key w p, key w2 p2⟩

theorem c4_exclusive_ownership_witness :
    World.add noThrow 1 5 none (World.add noThrow 1 5 none wSys).1 =
      ((World.add noThrow 1 5 none wSys).1, []) ∧
    World.add noThrow 2 5 none (World.add noThrow 1 5 none wSys).1 =
      ((World.add noThrow 1 5 none wSys).1, []) :=
  c4_exclusive_ownership noThrow 1 2 5 none none
    (World.add noThrow 1 5 none wSys).1
    { oid := 1, oworld := some 1, queryable := true, tags := ["x"] }
    (by decide) (by decide)

/-- C5: createRef(object) fails (throws a NotOwned-style error surfaced
synchronously) if and only if the object's world back-reference is not this
kernel; otherwise it returns a reference holding this kernel (whose live
table target reads) and the object's current id. -/
theorem c5_createRef_iff (w o : Nat) (s : Sys) (os : ObjState)
    (ho : mapGet s.objs o = some os) :
    (World.createRef w o s = Except.error () ↔ os.oworld ≠ some w) ∧
    (os.oworld = some w →
      World.createRef w o s = Except.ok { world := w, id := os.oid }) := by
  unfold World.createRef
  rw [ho]
  by_cases hw : os.oworld = some w
  · simp [hw]
  · simp [hw]

theorem c5_createRef_iff_witness :
    (World.createRef 1 5 wSys = Except.error () ↔
      (none : Option Nat) ≠ some 1) ∧
    ((none : Option Nat) = some 1 →
      World.createRef 1 5 wSys = Except.ok { world := 1, id := 0 }) :=
  c5_createRef_iff 1 5 wSys { queryable := true, tags := ["x"] } rfl

/-- C7: adding a component whose concrete type matches an already-mounted
component fails with a DuplicateComponent error surfaced synchronously to
the caller, and the owner's mount table is exactly the same after the failed
attempt as before it. -/
theorem c7_duplicate_component (tbl : MountTable) (c : Component)
    (h : hasComponent tbl c.ctype = true) :
    addComponent tbl c = (tbl, some CompError.duplicateComponent) := by
  unfold addComponent
  rw [if_pos h]

theorem c7_duplicate_component_witness :
    addComponent [("MyComponent", { ctype := "MyComponent" })]
        { ctype := "MyComponent" } =
      ([("MyComponent", { ctype := "MyComponent" })],
        some CompError.duplicateComponent) :=
  c7_duplicate_component _ _ (by decide)

/-- C8 as stated is false on the code: the component-payload entry is not
absent when the component exposes no save hook.  For sampleObject, whose
component named Silent exposes no save hook, the snapshot's payload record
still contains the key Silent, bound to the null literal. -/
theorem c8_counterexample :
    mapGet (PrefabObject.save sampleObject).c "Silent" = some JValue.jnull ∧
    mapGet (PrefabObject.save sampleObject).c "Silent" ≠ none := by
  decide

/-- C8 (amended): save() is a pure read of the object state producing a
snapshot with the object's template key, its position as a two-number tuple,
and a component-payload mapping keyed by component-type name whose value for
each component is that component's own save() output, the entry being
present and bound to the JSON null literal when the component exposes no
save hook. -/
theorem c8_save_snapshot (o : PrefabObject)
    (hn : (o.comps.map SaveComponent.cname).Nodup) :
    (PrefabObject.save o).k = o.key ∧ (PrefabObject.save o).p = o.pos ∧
    ∀ c ∈ o.comps, mapGet (PrefabObject.save o).c c.cname =
      some (match c.saveHook with
            | some v => v
            | none => JValue.jnull) := by
  refine ⟨rfl, rfl, ?_⟩
  intro c hc
  apply mapGet_of_mem_nodup
  · simpa [PrefabObject.save, mapKeys, List.map_map, Function.comp] using hn
  · exact List.mem_map.mpr ⟨c, hc, rfl⟩

theorem c8_save_snapshot_witness :
    mapGet (PrefabObject.save sampleObject).c "Example" =
      some (JValue.jstr "hello") :=
  (c8_save_snapshot sampleObject (by decide)).2.2
    { cname := "Example", saveHook := some (JValue.jstr "hello") } (by decide)

/-- C1: reference safety.  For an object o admitted to world w, the
reference created for it resolves to o immediately after admission, resolves
to null immediately after remove (before purge runs, because remove clears
the back-reference immediately and target compares it to the reference's
world), and still resolves to null after purge (the id is gone from the live
table). -/
theorem c1_reference_safety (t : Throws) (w o : Nat) (p : Option (Int × Int))
    (s : Sys) (os : ObjState) (ws : WorldState)
    (ho : mapGet s.objs o = some os) (hw : mapGet s.worlds w = some ws)
    (hun : os.oworld = none) (hkeys : (mapKeys ws.objects).Nodup) :
    ∃ r : WorldObjectRef,
      World.createRef w o (World.add t w o p s).1 = Except.ok r ∧
      r.target (World.add t w o p s).1 = some o ∧
      r.target (World.remove t w o (World.add t w o p s).1).1 = none ∧
      r.target (World.purge t w
        (World.remove t w o (World.add t w o p s).1).1).1 = none := by
  refine ⟨⟨w, ws.lastId + 1⟩, ?_, ?_, ?_, ?_⟩
  · simp [World.add, ho, hw, hun, World.createRef, mapGet_set_self]
  · simp [World.add, ho, hw, hun, WorldObjectRef.target, mapGet_set_self]
  · simp [World.add, ho, hw, hun, World.remove, WorldObjectRef.target,
      mapGet_set_self]
  · have hpn : mapGet (purgeLoop t (setAdd ws.removed (ws.lastId + 1))
        (mapSet ws.objects (ws.lastId + 1) o)).1 (ws.lastId + 1) = none :=
      purgeLoop_mem_none t _ _ _
        (nodup_keys_set ws.objects (ws.lastId + 1) o hkeys)
        (mem_setAdd_self ws.removed (ws.lastId + 1))
    simp [World.add, ho, hw, hun, World.remove, World.purge,
      WorldObjectRef.target, mapGet_set_self, hpn]

theorem c1_reference_safety_witness :
    ∃ r : WorldObjectRef,
      World.createRef 1 5 (World.add noThrow 1 5 none wSys).1 =
        Except.ok r ∧
      r.target (World.add noThrow 1 5 none wSys).1 = some 5 ∧
      r.target (World.remove noThrow 1 5
        (World.add noThrow 1 5 none wSys).1).1 = none ∧
      r.target (World.purge noThrow 1
        (World.remove noThrow 1 5
          (World.add noThrow 1 5 none wSys).1).1).1 = none :=
  c1_reference_safety noThrow 1 5 none wSys
    { queryable := true, tags := ["x"] } {} rfl rfl rfl (by decide)

/-- C6: purge() is idempotent: a second purge with no intervening remove
returns the same state and fires no hooks and raises no error, and a purge
with an empty pending set changes nothing. -/
theorem c6_purge_idempotent (t : Throws) (w : Nat) (s : Sys) :
    World.purge t w (World.purge t w s).1 = ((World.purge t w s).1, []) ∧
    (∀ ws, mapGet s.worlds w = some ws → ws.removed = [] →
      World.purge t w s = (s, [])) := by
  constructor
  · cases hw : mapGet s.worlds w with
    | none =>
      have h1 : World.purge t w s = (s, []) := by
        unfold World.purge
        rw [hw]
      simp [h1]
    | some ws =>
      have h1 : World.purge t w s =
          ({ s with worlds := mapSet s.worlds w ({ ws with
              objects := (purgeLoop t ws.removed ws.objects).1,
              removed := [] }) },
            (purgeLoop t ws.removed ws.objects).2) := by
        unfold World.purge
        rw [hw]
      have h2 : mapGet (mapSet s.worlds w ({ ws with
          objects := (purgeLoop t ws.removed ws.objects).1,
          removed := [] })) w =
          some ({ ws with
            objects := (purgeLoop t ws.removed ws.objects).1,
            removed := [] }) := mapGet_set_self ..
      rw [h1]
      simp only [World.purge, h2, purgeLoop]
      rw [mapSet_eq_of_get _ _ _ h2]
  · intro ws hgw hrem
    unfold World.purge
    rw [hgw]
    show ({ s with worlds := mapSet s.worlds w ({ ws with
        objects := (purgeLoop t ws.removed ws.objects).1,
        removed := [] }) },
      (purgeLoop t ws.removed ws.objects).2) = (s, [])
    rw [hrem]
    show ({ s with worlds := mapSet s.worlds w ({ ws with
        objects := ws.objects,
        removed := [] }) }, ([] : List Event)) = (s, [])
    have hws : ({ ws with objects := ws.objects, removed := [] } : WorldState) = ws := by
      rw [← hrem]
    rw [hws, mapSet_eq_of_get _ _ _ hgw]

theorem c6_purge_idempotent_witness :
    World.purge noThrow 1 (World.purge noThrow 1 wSys).1 =
      ((World.purge noThrow 1 wSys).1, []) ∧
    World.purge noThrow 1 wSys = (wSys, []) :=
  ⟨(c6_purge_idempotent noThrow 1 wSys).1,
    (c6_purge_idempotent noThrow 1 wSys).2 {} rfl rfl⟩

/-! ### Step-loop and purge-loop trace lemmas -/

theorem stepLoop_hooked (t : Throws) (entries : List (Nat × Nat)) :
    hookedOf HookKind.hstep (stepLoop t entries) = entries.map Prod.snd := by
  induction entries with
  | nil => simp [stepLoop, hookedOf]
  | cons hd rest ih =>
    obtain ⟨i, o⟩ := hd
    rw [stepLoop, hookedOf_append, hookedOf_dispatch_self, ih]
    rfl

theorem stepLoop_handled (t : Throws) (entries : List (Nat × Nat)) :
    handledOf HookKind.hstep (stepLoop t entries) =
      (entries.map Prod.snd).filter (t HookKind.hstep) := by
  induction entries with
  | nil => simp [stepLoop, handledOf]
  | cons hd rest ih =>
    obtain ⟨i, o⟩ := hd
    rw [stepLoop, handledOf_append, handledOf_dispatch_self, ih]
    by_cases ht : t HookKind.hstep o <;> simp [ht, List.filter_cons]

theorem purgeLoop_hooked_ne (t : Throws) (k : HookKind)
    (hne : k ≠ HookKind.hpurge) (p : List Nat) (tbl : List (Nat × Nat)) :
    hookedOf k (purgeLoop t p tbl).2 = [] := by
  induction p generalizing tbl with
  | nil => rfl
  | cons i rest ih =>
    cases hg : mapGet tbl i with
    | none =>
      unfold purgeLoop
      rw [hg]
      exact ih tbl
    | some o =>
      unfold purgeLoop
      rw [hg]
      show hookedOf k (dispatch t HookKind.hpurge o ++
        (purgeLoop t rest (mapDelete tbl i)).2) = []
      rw [hookedOf_append, hookedOf_dispatch_ne t HookKind.hpurge k o hne,
        ih (mapDelete tbl i)]
      rfl

theorem purgeLoop_handled_ne (t : Throws) (k : HookKind)
    (hne : k ≠ HookKind.hpurge) (p : List Nat) (tbl : List (Nat × Nat)) :
    handledOf k (purgeLoop t p tbl).2 = [] := by
  induction p generalizing tbl with
  | nil => rfl
  | cons i rest ih =>
    cases hg : mapGet tbl i with
    | none =>
      unfold purgeLoop
      rw [hg]
      exact ih tbl
    | some o =>
      unfold purgeLoop
      rw [hg]
      show handledOf k (dispatch t HookKind.hpurge o ++
        (purgeLoop t rest (mapDelete tbl i)).2) = []
      rw [handledOf_append, handledOf_dispatch_ne t HookKind.hpurge k o hne,
        ih (mapDelete tbl i)]
      rfl

theorem purgeLoop_fst_indep (t t' : Throws) (p : List Nat)
    (tbl : List (Nat × Nat)) :
    (purgeLoop t p tbl).1 = (purgeLoop t' p tbl).1 := by
  induction p generalizing tbl with
  | nil => rfl
  | cons i rest ih =>
    cases hg : mapGet tbl i with
    | none =>
      unfold purgeLoop
      rw [hg]
      exact ih tbl
    | some o =>
      unfold purgeLoop
      rw [hg]
      exact ih (mapDelete tbl i)

theorem purgeLoop_hooked_indep (t t' : Throws) (p : List Nat)
    (tbl : List (Nat × Nat)) :
    hookedOf HookKind.hpurge (purgeLoop t p tbl).2 =
      hookedOf HookKind.hpurge (purgeLoop t' p tbl).2 := by
  induction p generalizing tbl with
  | nil => rfl
  | cons i rest ih =>
    cases hg : mapGet tbl i with
    | none =>
      unfold purgeLoop
      rw [hg]
      exact ih tbl
    | some o =>
      unfold purgeLoop
      rw [hg]
      show hookedOf HookKind.hpurge (dispatch t HookKind.hpurge o ++
          (purgeLoop t rest (mapDelete tbl i)).2) =
        hookedOf HookKind.hpurge (dispatch t' HookKind.hpurge o ++
          (purgeLoop t' rest (mapDelete tbl i)).2)
      rw [hookedOf_append, hookedOf_append, hookedOf_dispatch_self,
        hookedOf_dispatch_self, ih (mapDelete tbl i)]

theorem purgeLoop_handled_eq (t : Throws) (p : List Nat)
    (tbl : List (Nat × Nat)) :
    handledOf HookKind.hpurge (purgeLoop t p tbl).2 =
      (hookedOf HookKind.hpurge (purgeLoop t p tbl).2).filter
        (t HookKind.hpurge) := by
  induction p generalizing tbl with
  | nil => rfl
  | cons i rest ih =>
    cases hg : mapGet tbl i with
    | none =>
      unfold purgeLoop
      rw [hg]
      exact ih tbl
    | some o =>
      unfold purgeLoop
      rw [hg]
      show handledOf HookKind.hpurge (dispatch t HookKind.hpurge o ++
          (purgeLoop t rest (mapDelete tbl i)).2) =
        (hookedOf HookKind.hpurge (dispatch t HookKind.hpurge o ++
          (purgeLoop t rest (mapDelete tbl i)).2)).filter (t HookKind.hpurge)
      rw [handledOf_append, hookedOf_append, handledOf_dispatch_self,
        hookedOf_dispatch_self, ih (mapDelete tbl i)]
      by_cases ht : t HookKind.hpurge o <;>
        simp [ht, List.filter_append, List.filter_cons]

/-- C2: failure isolation.  For any assignment of throwing hooks: a step
pass invokes the step hook of every live object in iteration order (the
hooked trace equals the whole live table) and routes exactly the throwing
ones to the per-kind handler; the kernel state after step and after purge
does not depend on which hooks threw (nothing propagates to the caller and
nothing is skipped); the purge pass invokes onPurge for the same objects
whether or not hooks throw, routing the throwing ones to the handler; and
an admitting add / owning remove always invokes its hook, routing it to the
per-kind handler exactly when it throws. -/
theorem c2_failure_isolation (t : Throws) (w now : Nat) (s : Sys)
    (ws : WorldState) (hw : mapGet s.worlds w = some ws) :
    hookedOf HookKind.hstep (World.step t w now s).2.2 =
      ws.objects.map Prod.snd ∧
    handledOf HookKind.hstep (World.step t w now s).2.2 =
      (ws.objects.map Prod.snd).filter (t HookKind.hstep) ∧
    (World.step t w now s).1 = (World.step noThrow w now s).1 ∧
    hookedOf HookKind.hpurge (World.purge t w s).2 =
      hookedOf HookKind.hpurge (World.purge noThrow w s).2 ∧
    handledOf HookKind.hpurge (World.purge t w s).2 =
      (hookedOf HookKind.hpurge (World.purge t w s).2).filter
        (t HookKind.hpurge) ∧
    (World.purge t w s).1 = (World.purge noThrow w s).1 ∧
    (∀ o os p, mapGet s.objs o = some os → os.oworld = none →
      hookedOf HookKind.hadd (World.add t w o p s).2 = [o] ∧
      handledOf HookKind.hadd (World.add t w o p s).2 =
        (if t HookKind.hadd o then [o] else [])) ∧
    (∀ o os, mapGet s.objs o = some os → os.oworld = some w →
      hookedOf HookKind.hremove (World.remove t w o s).2 = [o] ∧
      handledOf HookKind.hremove (World.remove t w o s).2 =
        (if t HookKind.hremove o then [o] else [])) := by
  have hstep_ev : (World.step t w now s).2.2 =
      stepLoop t ws.objects ++ (purgeLoop t ws.removed ws.objects).2 := by
    unfold World.step
    rw [hw]
  have hpurge_ev : ∀ t' : Throws, (World.purge t' w s).2 =
      (purgeLoop t' ws.removed ws.objects).2 := by
    intro t'
    unfold World.purge
    rw [hw]
  refine ⟨?_, ?_, ?_, ?_, ?_, ?_, ?_, ?_⟩
  · rw [hstep_ev, hookedOf_append, stepLoop_hooked,
      purgeLoop_hooked_ne t HookKind.hstep (by decide), List.append_nil]
  · rw [hstep_ev, handledOf_append, stepLoop_handled,
      purgeLoop_handled_ne t HookKind.hstep (by decide), List.append_nil]
  · unfold World.step
    rw [hw]
    show ({ s with worlds := mapSet s.worlds w ({ ws with
        objects := (purgeLoop t ws.removed ws.objects).1,
        removed := [],
        lastStep := some now }) }) = ({ s with worlds := mapSet s.worlds w ({ ws with
        objects := (purgeLoop noThrow ws.removed ws.objects).1,
        removed := [],
        lastStep := some now }) })
    rw [purgeLoop_fst_indep t noThrow ws.removed ws.objects]
  · rw [hpurge_ev t, hpurge_ev noThrow]
    exact purgeLoop_hooked_indep t noThrow ws.removed ws.objects
  · rw [hpurge_ev t]
    exact purgeLoop_handled_eq t ws.removed ws.objects
  · unfold World.purge
    rw [hw]
    show ({ s with worlds := mapSet s.worlds w ({ ws with
        objects := (purgeLoop t ws.removed ws.objects).1,
        removed := [] }) }) = ({ s with worlds := mapSet s.worlds w ({ ws with
        objects := (purgeLoop noThrow ws.removed ws.objects).1,
        removed := [] }) })
    rw [purgeLoop_fst_indep t noThrow ws.removed ws.objects]
  · intro o os p ho hun
    have hadd_ev : (World.add t w o p s).2 =
        Event.assigned w (ws.lastId + 1) o :: dispatch t HookKind.hadd o := by
      unfold World.add
      rw [ho, hw]
      simp [hun]
    rw [hadd_ev]
    by_cases ht : t HookKind.hadd o <;>
      simp [hookedOf, handledOf, dispatch, hookRun, ht]
  · intro o os ho hown
    have hrem_ev : (World.remove t w o s).2 =
        dispatch t HookKind.hremove o := by
      unfold World.remove
      rw [ho]
      simp [hown, hw]
    rw [hrem_ev]
    by_cases ht : t HookKind.hremove o <;>
      simp [hookedOf, handledOf, dispatch, hookRun, ht]

theorem c2_failure_isolation_witness :
    hookedOf HookKind.hstep (World.step tOne 1 10 wSys2).2.2 = [5, 6] ∧
    handledOf HookKind.hstep (World.step tOne 1 10 wSys2).2.2 = [5] ∧
    (World.step tOne 1 10 wSys2).1 = (World.step noThrow 1 10 wSys2).1 := by
  obtain ⟨h1, h2, h3, _⟩ := c2_failure_isolation tOne 1 10 wSys2
    { lastId := 2, objects := [(1, 5), (2, 6)], removed := [2] } rfl
  exact ⟨h1, h2, h3⟩

/-! ### Query-engine lemmas -/

theorem getQueryable_cons_skip (s : Sys) (i o : Nat)
    (rest : List (Nat × Nat))
    (h : ∀ os, mapGet s.objs o = some os → os.queryable = false) :
    getQueryable s ((i, o) :: rest) = getQueryable s rest := by
  cases hg : mapGet s.objs o with
  | none => simp [getQueryable, hg]
  | some os => simp [getQueryable, hg, h os hg]

theorem getQueryable_cons_keep (s : Sys) (i o : Nat) (os : ObjState)
    (rest : List (Nat × Nat)) (hg : mapGet s.objs o = some os)
    (hq : os.queryable = true) :
    getQueryable s ((i, o) :: rest) = (o, os) :: getQueryable s rest := by
  simp [getQueryable, hg, hq]

theorem mem_getQueryable (s : Sys) (entries : List (Nat × Nat)) (o : Nat)
    (os : ObjState) (h : (o, os) ∈ getQueryable s entries) :
    mapGet s.objs o = some os ∧ os.queryable = true ∧
      ∃ i, (i, o) ∈ entries := by
  induction entries with
  | nil => simp [getQueryable] at h
  | cons hd rest ih =>
    obtain ⟨i, o'⟩ := hd
    cases hg : mapGet s.objs o' with
    | none =>
      rw [getQueryable_cons_skip s i o' rest
        (fun osX hX => by rw [hg] at hX; cases hX)] at h
      obtain ⟨h1, h2, i', h3⟩ := ih h
      exact ⟨h1, h2, i', List.mem_cons_of_mem _ h3⟩
    | some os' =>
      by_cases hq : os'.queryable = true
      · rw [getQueryable_cons_keep s i o' os' rest hg hq] at h
        rcases List.mem_cons.mp h with he | ht
        · injection he with h1 h2
          subst h1
          subst h2
          exact ⟨hg, hq, i, List.mem_cons_self ..⟩
        · obtain ⟨h1, h2, i', h3⟩ := ih ht
          exact ⟨h1, h2, i', List.mem_cons_of_mem _ h3⟩
      · rw [getQueryable_cons_skip s i o' rest (fun osX hX => by
          rw [hg] at hX
          rw [← Option.some.inj hX]
          exact Bool.eq_false_iff.mpr hq)] at h
        obtain ⟨h1, h2, i', h3⟩ := ih h
        exact ⟨h1, h2, i', List.mem_cons_of_mem _ h3⟩

theorem getQueryable_mem (s : Sys) (entries : List (Nat × Nat)) (i o : Nat)
    (os : ObjState) (hm : (i, o) ∈ entries)
    (hg : mapGet s.objs o = some os) (hq : os.queryable = true) :
    (o, os) ∈ getQueryable s entries := by
  induction entries with
  | nil => simp at hm
  | cons hd rest ih =>
    obtain ⟨i', o'⟩ := hd
    rcases List.mem_cons.mp hm with he | ht
    · injection he with h1 h2
      subst h1
      subst h2
      rw [getQueryable_cons_keep s i o os rest hg hq]
      exact List.mem_cons_self ..
    · cases hg' : mapGet s.objs o' with
      | none =>
        rw [getQueryable_cons_skip s i' o' rest
          (fun osX hX => by rw [hg'] at hX; cases hX)]
        exact ih ht
      | some os' =>
        by_cases hq' : os'.queryable = true
        · rw [getQueryable_cons_keep s i' o' os' rest hg' hq']
          exact List.mem_cons_of_mem _ (ih ht)
        · rw [getQueryable_cons_skip s i' o' rest (fun osX hX => by
            rw [hg'] at hX
            rw [← Option.some.inj hX]
            exact Bool.eq_false_iff.mpr hq')]
          exact ih ht

theorem getQueryable_append (s : Sys) (l1 l2 : List (Nat × Nat)) :
    getQueryable s (l1 ++ l2) =
      getQueryable s l1 ++ getQueryable s l2 := by
  induction l1 with
  | nil => rfl
  | cons hd rest ih =>
    obtain ⟨i, o⟩ := hd
    rw [List.cons_append]
    cases hg : mapGet s.objs o with
    | none =>
      rw [getQueryable_cons_skip s i o (rest ++ l2)
          (fun osX hX => by rw [hg] at hX; cases hX),
        getQueryable_cons_skip s i o rest
          (fun osX hX => by rw [hg] at hX; cases hX)]
      exact ih
    | some os =>
      by_cases hq : os.queryable = true
      · rw [getQueryable_cons_keep s i o os (rest ++ l2) hg hq,
          getQueryable_cons_keep s i o os rest hg hq, ih]
        rfl
      · have hfalse : ∀ osX, mapGet s.objs o = some osX →
            osX.queryable = false := fun osX hX => by
          rw [hg] at hX
          rw [← Option.some.inj hX]
          exact Bool.eq_false_iff.mpr hq
        rw [getQueryable_cons_skip s i o (rest ++ l2) hfalse,
          getQueryable_cons_skip s i o rest hfalse]
        exact ih

theorem getQueryable_owned (w : Nat) (s : Sys) (ws : WorldState)
    (hWF : ∀ pr ∈ ws.objects, ∃ osW, mapGet s.objs pr.2 = some osW ∧
      osW.oworld = some w ∧ osW.oid = pr.1) :
    ∀ pr ∈ getQueryable s ws.objects,
      mapGet s.objs pr.1 = some pr.2 ∧ pr.2.oworld = some w ∧
      (pr.2.oid, pr.1) ∈ ws.objects ∧ pr.2.queryable = true := by
  intro pr hpr
  obtain ⟨o, os⟩ := pr
  obtain ⟨hg, hq, i, hmem⟩ := mem_getQueryable s ws.objects o os hpr
  obtain ⟨osW, hgW, hoW, hidW⟩ := hWF (i, o) hmem
  have hos : osW = os := by
    rw [hgW] at hg
    exact Option.some.inj hg
  subst hos
  refine ⟨hg, hoW, ?_, hq⟩
  rw [hidW]
  exact hmem

theorem createRef_owned (w o : Nat) (s : Sys) (os : ObjState)
    (hg : mapGet s.objs o = some os) (hown : os.oworld = some w) :
    World.createRef w o s = Except.ok { world := w, id := os.oid } := by
  simp [World.createRef, hg, hown]

theorem matchedRef_target (w : Nat) (s : Sys) (ws : WorldState)
    (hw : mapGet s.worlds w = some ws)
    (hkeys : (mapKeys ws.objects).Nodup) (o : Nat) (os : ObjState)
    (hg : mapGet s.objs o = some os) (hoW : os.oworld = some w)
    (hmem : (os.oid, o) ∈ ws.objects) :
    WorldObjectRef.target { world := w, id := os.oid } s = some o := by
  simp [WorldObjectRef.target, hw,
    mapGet_of_mem_nodup ws.objects os.oid o hkeys hmem, hg, hoW]

theorem wqAllLoop_ok (cs : List WorldQueryConstraint) (w : Nat) (s : Sys)
    (qs : List (Nat × ObjState))
    (hq : ∀ pr ∈ qs, mapGet s.objs pr.1 = some pr.2 ∧
      pr.2.oworld = some w) :
    wqAllLoop cs w s qs = Except.ok
      ((qs.filter fun pr => wqMatches cs pr.2).map
        (fun pr => ({ world := w, id := pr.2.oid } : WorldObjectRef))) := by
  induction qs with
  | nil => rfl
  | cons hd rest ih =>
    obtain ⟨o, os⟩ := hd
    obtain ⟨hg, hown⟩ := hq (o, os) (List.mem_cons_self ..)
    have hrest := fun pr hpr => hq pr (List.mem_cons_of_mem _ hpr)
    unfold wqAllLoop
    by_cases hm : wqMatches cs os = true
    · rw [if_pos hm]
      rw [createRef_owned w o s os hg hown, ih hrest]
      simp [List.filter_cons, hm]
    · rw [if_neg hm]
      rw [ih hrest]
      simp [List.filter_cons, hm]

theorem wqFirstLoop_ok (cs : List WorldQueryConstraint) (w : Nat) (s : Sys)
    (qs : List (Nat × ObjState))
    (hq : ∀ pr ∈ qs, mapGet s.objs pr.1 = some pr.2 ∧
      pr.2.oworld = some w) :
    wqFirstLoop cs w s qs = Except.ok
      (((qs.filter fun pr => wqMatches cs pr.2).map
        (fun pr => ({ world := w, id := pr.2.oid } :
          WorldObjectRef))).head?) := by
  induction qs with
  | nil => rfl
  | cons hd rest ih =>
    obtain ⟨o, os⟩ := hd
    obtain ⟨hg, hown⟩ := hq (o, os) (List.mem_cons_self ..)
    have hrest := fun pr hpr => hq pr (List.mem_cons_of_mem _ hpr)
    unfold wqFirstLoop
    by_cases hm : wqMatches cs os = true
    · rw [if_pos hm]
      rw [createRef_owned w o s os hg hown]
      simp [List.filter_cons, hm]
    · rw [if_neg hm]
      rw [ih hrest]
      simp [List.filter_cons, hm]

theorem wqFirstLoop_skip (cs : List WorldQueryConstraint) (w : Nat) (s : Sys)
    (qs₁ qs₂ : List (Nat × ObjState))
    (h : ∀ pr ∈ qs₁, wqMatches cs pr.2 = false) :
    wqFirstLoop cs w s (qs₁ ++ qs₂) = wqFirstLoop cs w s qs₂ := by
  induction qs₁ with
  | nil => rfl
  | cons hd rest ih =>
    obtain ⟨o, os⟩ := hd
    have hh := h (o, os) (List.mem_cons_self ..)
    rw [List.cons_append]
    simp only [wqFirstLoop]
    rw [if_neg (by simp [hh])]
    exact ih fun pr hpr => h pr (List.mem_cons_of_mem _ hpr)

theorem wqFirstLoop_found (cs : List WorldQueryConstraint) (w : Nat)
    (s : Sys) (o : Nat) (os : ObjState) (qs : List (Nat × ObjState))
    (hm : wqMatches cs os = true) (hg : mapGet s.objs o = some os)
    (hown : os.oworld = some w) :
    wqFirstLoop cs w s ((o, os) :: qs) =
      Except.ok (some { world := w, id := os.oid }) := by
  unfold wqFirstLoop
  rw [if_pos hm]
  rw [createRef_owned w o s os hg hown]

/-- C9: query visibility.  In a well-formed world (every live-table entry
owned by this world and registered under its own id, table keys distinct):
an object admitted with queryable = false is never returned by first() or
all() whatever the constraint set; an object admitted with queryable = true
that carries tag x is included in all() under the byTag(x) constraint, and
is returned by first() when every candidate earlier in scan order fails the
queryable-and-matching test. -/
theorem c9_query_visibility (w : Nat) (s : Sys) (ws : WorldState)
    (i o : Nat) (os : ObjState) (tag : String)
    (hw : mapGet s.worlds w = some ws)
    (hkeys : (mapKeys ws.objects).Nodup)
    (hWF : ∀ pr ∈ ws.objects, ∃ osW, mapGet s.objs pr.2 = some osW ∧
      osW.oworld = some w ∧ osW.oid = pr.1)
    (hio : mapGet ws.objects i = some o)
    (ho : mapGet s.objs o = some os) :
    (os.queryable = false →
      ∀ cs : List WorldQueryConstraint,
        (∃ rs, wqAll cs w s = Except.ok rs ∧
          ∀ r ∈ rs, WorldObjectRef.target r s ≠ some o) ∧
        (∃ ro, wqFirst cs w s = Except.ok ro ∧
          ∀ r, ro = some r → WorldObjectRef.target r s ≠ some o)) ∧
    (os.queryable = true → os.tags.contains tag = true →
      (∃ rs, wqAll [tagConstraintFactory tag] w s = Except.ok rs ∧
        ∃ r ∈ rs, WorldObjectRef.target r s = some o) ∧
      (∀ pre post, ws.objects = pre ++ (i, o) :: post →
        (∀ pr ∈ pre, ∀ osP, mapGet s.objs pr.2 = some osP →
          (osP.queryable && wqMatches [tagConstraintFactory tag] osP)
            = false) →
        wqFirst [tagConstraintFactory tag] w s =
          Except.ok (some { world := w, id := os.oid }) ∧
        WorldObjectRef.target { world := w, id := os.oid } s = some o)) := by
  have hqhyp : ∀ pr ∈ getQueryable s ws.objects,
      mapGet s.objs pr.1 = some pr.2 ∧ pr.2.oworld = some w := by
    intro pr hpr
    obtain ⟨h1, h2, _, _⟩ := getQueryable_owned w s ws hWF pr hpr
    exact ⟨h1, h2⟩
  constructor
  · intro hqf cs
    have hnot : ∀ r ∈ ((getQueryable s ws.objects).filter
        (fun pr => wqMatches cs pr.2)).map
        (fun pr => ({ world := w, id := pr.2.oid } : WorldObjectRef)),
        WorldObjectRef.target r s ≠ some o := by
      intro r hr htgt
      obtain ⟨pr, hprf, hre⟩ := List.mem_map.mp hr
      have hprq := List.mem_of_mem_filter hprf
      obtain ⟨hg1, hown1, hmem1, hq1⟩ :=
        getQueryable_owned w s ws hWF pr hprq
      have htv : WorldObjectRef.target r s = some pr.1 := by
        rw [← hre]
        exact matchedRef_target w s ws hw hkeys pr.1 pr.2 hg1 hown1 hmem1
      have hpro : pr.1 = o := Option.some.inj (htv.symm.trans htgt)
      rw [hpro] at hg1
      have hos2 : pr.2 = os := Option.some.inj (hg1.symm.trans ho)
      rw [hos2, hqf] at hq1
      exact absurd hq1 (by decide)
    constructor
    · refine ⟨_, ?_, hnot⟩
      unfold wqAll
      rw [hw]
      exact wqAllLoop_ok cs w s _ hqhyp
    · refine ⟨(((getQueryable s ws.objects).filter
          (fun pr => wqMatches cs pr.2)).map
          (fun pr => ({ world := w, id := pr.2.oid } :
            WorldObjectRef))).head?, ?_, ?_⟩
      · unfold wqFirst
        rw [hw]
        exact wqFirstLoop_ok cs w s _ hqhyp
      · intro r hro
        exact hnot r (List.mem_of_mem_head? (Option.mem_def.mpr hro))
  · intro hqt htag
    have hm : wqMatches [tagConstraintFactory tag] os = true := by
      show (os.tags.contains tag && true) = true
      rw [Bool.and_true]
      exact htag
    obtain ⟨osW, hgW, hoW, hidW⟩ := hWF (i, o) (mapGet_mem ws.objects i o hio)
    have hosW : osW = os := Option.some.inj (hgW.symm.trans ho)
    rw [hosW] at hoW hidW
    have hmemQ : (o, os) ∈ getQueryable s ws.objects :=
      getQueryable_mem s ws.objects i o os
        (mapGet_mem ws.objects i o hio) ho hqt
    have hmem2 : (os.oid, o) ∈ ws.objects := by
      rw [hidW]
      exact mapGet_mem ws.objects i o hio
    have htgt2 : WorldObjectRef.target { world := w, id := os.oid } s =
        some o := matchedRef_target w s ws hw hkeys o os ho hoW hmem2
    constructor
    · refine ⟨((getQueryable s ws.objects).filter
          (fun pr => wqMatches [tagConstraintFactory tag] pr.2)).map
          (fun pr => ({ world := w, id := pr.2.oid } : WorldObjectRef)),
          ?_, ?_⟩
      · unfold wqAll
        rw [hw]
        exact wqAllLoop_ok [tagConstraintFactory tag] w s _ hqhyp
      · refine ⟨{ world := w, id := os.oid }, ?_, htgt2⟩
        exact List.mem_map.mpr
          ⟨(o, os), List.mem_filter.mpr ⟨hmemQ, hm⟩, rfl⟩
    · intro pre post hsplit hpre
      have hfail : ∀ pr ∈ getQueryable s pre,
          wqMatches [tagConstraintFactory tag] pr.2 = false := by
        intro pr hpr
        obtain ⟨hg1, hq1, i1, hmem1⟩ :=
          mem_getQueryable s pre pr.1 pr.2 hpr
        have hb := hpre (i1, pr.1) hmem1 pr.2 hg1
        simpa [hq1] using hb
      have hfirst_eq : wqFirst [tagConstraintFactory tag] w s =
          Except.ok (some { world := w, id := os.oid }) := by
        unfold wqFirst
        rw [hw]
        show wqFirstLoop [tagConstraintFactory tag] w s
            (getQueryable s ws.objects) =
          Except.ok (some { world := w, id := os.oid })
        rw [hsplit, getQueryable_append,
          getQueryable_cons_keep s i o os post ho hqt,
          wqFirstLoop_skip _ w s _ _ hfail,
          wqFirstLoop_found _ w s o os _ hm ho hoW]
      exact ⟨hfirst_eq, htgt2⟩

theorem c9_query_visibility_witness :
    (∃ rs, wqAll [tagConstraintFactory "x"] 1 wSys3 = Except.ok rs ∧
      ∃ r ∈ rs, WorldObjectRef.target r wSys3 = some 5) ∧
    wqFirst [tagConstraintFactory "x"] 1 wSys3 =
      Except.ok (some { world := 1, id := 1 }) ∧
    (∃ rs, wqAll [tagConstraintFactory "x"] 1 wSys3 = Except.ok rs ∧
      ∀ r ∈ rs, WorldObjectRef.target r wSys3 ≠ some 6) := by
  have hWF3 : ∀ pr ∈ (({ lastId := 2, objects := [(1, 5), (2, 6)] } :
      WorldState)).objects, ∃ osW, mapGet wSys3.objs pr.2 = some osW ∧
      osW.oworld = some 1 ∧ osW.oid = pr.1 := by
    intro pr hpr
    simp only [List.mem_cons, List.not_mem_nil, or_false] at hpr
    rcases hpr with rfl | rfl
    · exact ⟨{ oid := 1, oworld := some 1, queryable := true, tags := ["x"] }, rfl, rfl, rfl⟩
    · exact ⟨{ oid := 2, oworld := some 1, queryable := false, tags := ["x"] }, rfl, rfl, rfl⟩
  obtain ⟨hq5a, hq5f⟩ := (c9_query_visibility 1 wSys3
      { lastId := 2, objects := [(1, 5), (2, 6)] } 1 5
      { oid := 1, oworld := some 1, queryable := true, tags := ["x"] }
      "x" rfl (by decide) hWF3 rfl rfl).2 rfl (by decide)
  obtain ⟨hfeq, _⟩ := hq5f [] [(2, 6)] rfl (by
    intro pr hpr
    exact absurd hpr (List.not_mem_nil pr))
  have hq6 := ((c9_query_visibility 1 wSys3
      { lastId := 2, objects := [(1, 5), (2, 6)] } 2 6
      { oid := 2, oworld := some 1, queryable := false, tags := ["x"] }
      "x" rfl (by decide) hWF3 rfl rfl).1 rfl [tagConstraintFactory "x"]).1
  exact ⟨hq5a, hfeq, hq6⟩

/-! ### Invariant lemmas for the id counter -/

theorem purgeLoop_fst_sublist (t : Throws) (p : List Nat)
    (tbl : List (Nat × Nat)) : List.Sublist (purgeLoop t p tbl).1 tbl := by
  induction p generalizing tbl with
  | nil => exact List.Sublist.refl tbl
  | cons i rest ih =>
    cases hg : mapGet tbl i with
    | none =>
      unfold purgeLoop
      rw [hg]
      exact ih tbl
    | some o =>
      unfold purgeLoop
      rw [hg]
      exact List.Sublist.trans (ih (mapDelete tbl i)) (mapDelete_sublist tbl i)

theorem assignedIds_stepLoop (t : Throws) (w : Nat)
    (entries : List (Nat × Nat)) :
    assignedIds w (stepLoop t entries) = [] := by
  induction entries with
  | nil => rfl
  | cons hd rest ih =>
    obtain ⟨i, o⟩ := hd
    rw [stepLoop, assignedIds_append, assignedIds_dispatch, ih]
    rfl

theorem assignedIds_purgeLoop (t : Throws) (w : Nat) (p : List Nat)
    (tbl : List (Nat × Nat)) :
    assignedIds w (purgeLoop t p tbl).2 = [] := by
  induction p generalizing tbl with
  | nil => rfl
  | cons i rest ih =>
    cases hg : mapGet tbl i with
    | none =>
      unfold purgeLoop
      rw [hg]
      exact ih tbl
    | some o =>
      unfold purgeLoop
      rw [hg]
      show assignedIds w (dispatch t HookKind.hpurge o ++
        (purgeLoop t rest (mapDelete tbl i)).2) = []
      rw [assignedIds_append, assignedIds_dispatch, ih (mapDelete tbl i)]
      rfl

theorem assignedIds_cons_assigned (w w' i o : Nat) (evs : List Event) :
    assignedIds w (Event.assigned w' i o :: evs) =
      (if w' = w then [i] else []) ++ assignedIds w evs := by
  by_cases hww : w' = w <;> simp [assignedIds, List.filterMap_cons, hww]

theorem sysInv_set_world (s : Sys) (w' : Nat) (ws' : WorldState)
    (objs' : List (Nat × ObjState)) (h : SysInv s) (hws' : WInv ws') :
    SysInv { worlds := mapSet s.worlds w' ws', objs := objs' } := by
  intro w₂ ws₂ hg₂
  have hg : mapGet (mapSet s.worlds w' ws') w₂ = some ws₂ := hg₂
  by_cases hww : w' = w₂
  · subst hww
    rw [mapGet_set_self] at hg
    rw [← Option.some.inj hg]
    exact hws'
  · rw [mapGet_set_ne s.worlds w' w₂ ws' (fun he2 => hww he2.symm)] at hg
    exact h w₂ ws₂ hg

theorem wLast_set_world (s : Sys) (w' w : Nat) (ws' : WorldState)
    (objs' : List (Nat × ObjState)) :
    wLast { worlds := mapSet s.worlds w' ws', objs := objs' } w =
      if w' = w then ws'.lastId else wLast s w := by
  unfold wLast
  by_cases hww : w' = w
  · subst hww
    simp [mapGet_set_self]
  · simp [mapGet_set_ne s.worlds w' w ws' (fun he2 => hww he2.symm), hww]

theorem add_spec (t : Throws) (w' o : Nat) (p : Option (Int × Int))
    (s : Sys) (w : Nat) (h : SysInv s) :
    SysInv (World.add t w' o p s).1 ∧
    ((assignedIds w (World.add t w' o p s).2 = [] ∧
      wLast (World.add t w' o p s).1 w = wLast s w) ∨
     (assignedIds w (World.add t w' o p s).2 = [wLast s w + 1] ∧
      wLast (World.add t w' o p s).1 w = wLast s w + 1)) := by
  cases hgo : mapGet s.objs o with
  | none =>
    have he : World.add t w' o p s = (s, []) := by
      unfold World.add
      rw [hgo]
    rw [he]
    exact ⟨h, Or.inl ⟨rfl, rfl⟩⟩
  | some os =>
    cases hgw : mapGet s.worlds w' with
    | none =>
      have he : World.add t w' o p s = (s, []) := by
        unfold World.add
        rw [hgo, hgw]
      rw [he]
      exact ⟨h, Or.inl ⟨rfl, rfl⟩⟩
    | some ws =>
      by_cases hun : os.oworld = none
      · have he1 : (World.add t w' o p s).1 =
            { worlds := mapSet s.worlds w' ({ ws with
                lastId := ws.lastId + 1,
                objects := mapSet ws.objects (ws.lastId + 1) o }),
              objs := mapSet s.objs o ({ os with
                oid := ws.lastId + 1,
                oworld := some w',
                pos := p.getD os.pos }) } := by
          unfold World.add
          rw [hgo, hgw]
          simp [hun]
        have he2 : (World.add t w' o p s).2 =
            Event.assigned w' (ws.lastId + 1) o ::
              dispatch t HookKind.hadd o := by
          unfold World.add
          rw [hgo, hgw]
          simp [hun]
        have hwl : wLast s w' = ws.lastId := by
          unfold wLast
          rw [hgw]
        constructor
        · rw [he1]
          refine sysInv_set_world s w' _ _ h ?_
          obtain ⟨hk, hb⟩ := h w' ws hgw
          constructor
          · exact nodup_keys_set ws.objects (ws.lastId + 1) o hk
          · intro j hj
            rcases mem_keys_set ws.objects (ws.lastId + 1) j o hj
              with hj2 | hj2
            · exact le_trans (hb j hj2) (Nat.le_succ _)
            · rw [hj2]
        · by_cases hww : w' = w
          · subst hww
            right
            constructor
            · rw [he2, assignedIds_cons_assigned, assignedIds_dispatch,
                if_pos rfl, hwl]
              rfl
            · rw [he1, wLast_set_world, if_pos rfl, hwl]
          · left
            constructor
            · rw [he2, assignedIds_cons_assigned, assignedIds_dispatch,
                if_neg hww]
              rfl
            · rw [he1, wLast_set_world, if_neg hww]
      · have he : World.add t w' o p s = (s, []) := by
          unfold World.add
          rw [hgo, hgw]
          simp [hun]
        rw [he]
        exact ⟨h, Or.inl ⟨rfl, rfl⟩⟩

theorem remove_spec (t : Throws) (w' o : Nat) (s : Sys) (w : Nat)
    (h : SysInv s) :
    SysInv (World.remove t w' o s).1 ∧
    assignedIds w (World.remove t w' o s).2 = [] ∧
    wLast (World.remove t w' o s).1 w = wLast s w := by
  cases hgo : mapGet s.objs o with
  | none =>
    have he : World.remove t w' o s = (s, []) := by
      unfold World.remove
      rw [hgo]
    rw [he]
    exact ⟨h, rfl, rfl⟩
  | some os =>
    by_cases hop : os.oworld = some w'
    · cases hgw : mapGet s.worlds w' with
      | none =>
        have he : World.remove t w' o s = (s, []) := by
          unfold World.remove
          rw [hgo]
          simp [hop, hgw]
        rw [he]
        exact ⟨h, rfl, rfl⟩
      | some ws =>
        have he1 : (World.remove t w' o s).1 =
            { worlds := mapSet s.worlds w' ({ ws with
                removed := setAdd ws.removed os.oid }),
              objs := mapSet s.objs o ({ os with oworld := none }) } := by
          unfold World.remove
          rw [hgo]
          simp [hop, hgw]
        have he2 : (World.remove t w' o s).2 =
            dispatch t HookKind.hremove o := by
          unfold World.remove
          rw [hgo]
          simp [hop, hgw]
        have hwl : wLast s w' = ws.lastId := by
          unfold wLast
          rw [hgw]
        refine ⟨?_, ?_, ?_⟩
        · rw [he1]
          refine sysInv_set_world s w' _ _ h ?_
          obtain ⟨hk, hb⟩ := h w' ws hgw
          exact ⟨hk, hb⟩
        · rw [he2, assignedIds_dispatch]
        · rw [he1, wLast_set_world]
          by_cases hww : w' = w
          · subst hww
            rw [if_pos rfl]
            show ws.lastId = wLast s w'
            exact hwl.symm
          · rw [if_neg hww]
    · have he : World.remove t w' o s = (s, []) := by
        unfold World.remove
        rw [hgo]
        simp [hop]
      rw [he]
      exact ⟨h, rfl, rfl⟩

theorem purge_spec (t : Throws) (w' : Nat) (s : Sys) (w : Nat)
    (h : SysInv s) :
    SysInv (World.purge t w' s).1 ∧
    assignedIds w (World.purge t w' s).2 = [] ∧
    wLast (World.purge t w' s).1 w = wLast s w := by
  cases hgw : mapGet s.worlds w' with
  | none =>
    have he : World.purge t w' s = (s, []) := by
      unfold World.purge
      rw [hgw]
    rw [he]
    exact ⟨h, rfl, rfl⟩
  | some ws =>
    have he1 : (World.purge t w' s).1 =
        { worlds := mapSet s.worlds w' ({ ws with
            objects := (purgeLoop t ws.removed ws.objects).1,
            removed := [] }), objs := s.objs } := by
      unfold World.purge
      rw [hgw]
    have he2 : (World.purge t w' s).2 =
        (purgeLoop t ws.removed ws.objects).2 := by
      unfold World.purge
      rw [hgw]
    have hwl : wLast s w' = ws.lastId := by
      unfold wLast
      rw [hgw]
    refine ⟨?_, ?_, ?_⟩
    · rw [he1]
      refine sysInv_set_world s w' _ _ h ?_
      obtain ⟨hk, hb⟩ := h w' ws hgw
      constructor
      · exact List.Nodup.sublist
          (List.Sublist.map Prod.fst
            (purgeLoop_fst_sublist t ws.removed ws.objects)) hk
      · intro j hj
        exact hb j
          (((purgeLoop_fst_sublist t ws.removed ws.objects).map
            Prod.fst).subset hj)
    · rw [he2]
      exact assignedIds_purgeLoop t w ws.removed ws.objects
    · rw [he1, wLast_set_world]
      by_cases hww : w' = w
      · subst hww
        rw [if_pos rfl]
        show ws.lastId = wLast s w'
        exact hwl.symm
      · rw [if_neg hww]

theorem step_spec (t : Throws) (w' now : Nat) (s : Sys) (w : Nat)
    (h : SysInv s) :
    SysInv (World.step t w' now s).1 ∧
    assignedIds w (World.step t w' now s).2.2 = [] ∧
    wLast (World.step t w' now s).1 w = wLast s w := by
  cases hgw : mapGet s.worlds w' with
  | none =>
    have he : (World.step t w' now s).1 = s ∧
        (World.step t w' now s).2.2 = [] := by
      unfold World.step
      rw [hgw]
      exact ⟨rfl, rfl⟩
    rw [he.1, he.2]
    exact ⟨h, rfl, rfl⟩
  | some ws =>
    have he1 : (World.step t w' now s).1 =
        { worlds := mapSet s.worlds w' ({ ws with
            objects := (purgeLoop t ws.removed ws.objects).1,
            removed := [], lastStep := some now }), objs := s.objs } := by
      unfold World.step
      rw [hgw]
    have he2 : (World.step t w' now s).2.2 =
        stepLoop t ws.objects ++ (purgeLoop t ws.removed ws.objects).2 := by
      unfold World.step
      rw [hgw]
    have hwl : wLast s w' = ws.lastId := by
      unfold wLast
      rw [hgw]
    refine ⟨?_, ?_, ?_⟩
    · rw [he1]
      refine sysInv_set_world s w' _ _ h ?_
      obtain ⟨hk, hb⟩ := h w' ws hgw
      constructor
      · exact List.Nodup.sublist
          (List.Sublist.map Prod.fst
            (purgeLoop_fst_sublist t ws.removed ws.objects)) hk
      · intro j hj
        exact hb j
          (((purgeLoop_fst_sublist t ws.removed ws.objects).map
            Prod.fst).subset hj)
    · rw [he2, assignedIds_append, assignedIds_stepLoop,
        assignedIds_purgeLoop]
      rfl
    · rw [he1, wLast_set_world]
      by_cases hww : w' = w
      · subst hww
        rw [if_pos rfl]
        show ws.lastId = wLast s w'
        exact hwl.symm
      · rw [if_neg hww]

theorem runOp_spec (t : Throws) (s : Sys) (op : Op) (w : Nat)
    (h : SysInv s) :
    SysInv (runOp t s op).1 ∧
    ((assignedIds w (runOp t s op).2 = [] ∧
      wLast (runOp t s op).1 w = wLast s w) ∨
     (assignedIds w (runOp t s op).2 = [wLast s w + 1] ∧
      wLast (runOp t s op).1 w = wLast s w + 1)) := by
  cases op with
  | opAdd w' o p => exact add_spec t w' o p s w h
  | opRemove w' o =>
    obtain ⟨h1, h2, h3⟩ := remove_spec t w' o s w h
    exact ⟨h1, Or.inl ⟨h2, h3⟩⟩
  | opPurge w' =>
    obtain ⟨h1, h2, h3⟩ := purge_spec t w' s w h
    exact ⟨h1, Or.inl ⟨h2, h3⟩⟩
  | opStep w' now =>
    obtain ⟨h1, h2, h3⟩ := step_spec t w' now s w h
    exact ⟨h1, Or.inl ⟨h2, h3⟩⟩

theorem runOps_chain (t : Throws) (ops : List Op) (s : Sys) (w : Nat)
    (h : SysInv s) :
    SysInv (runOps t s ops).1 ∧
    List.Chain' (· < ·) (wLast s w :: assignedIds w (runOps t s ops).2) ∧
    (assignedIds w (runOps t s ops).2).getLastD (wLast s w) =
      wLast (runOps t s ops).1 w := by
  induction ops generalizing s with
  | nil => exact ⟨h, List.chain'_singleton (wLast s w), rfl⟩
  | cons op rest ih =>
    obtain ⟨h1, h2⟩ := runOp_spec t s op w h
    obtain ⟨ih1, ih2, ih3⟩ := ih (runOp t s op).1 h1
    have hev : assignedIds w (runOps t s (op :: rest)).2 =
        assignedIds w (runOp t s op).2 ++
        assignedIds w (runOps t (runOp t s op).1 rest).2 := by
      show assignedIds w ((runOp t s op).2 ++
        (runOps t (runOp t s op).1 rest).2) = _
      exact assignedIds_append ..
    have hst : (runOps t s (op :: rest)).1 =
        (runOps t (runOp t s op).1 rest).1 := rfl
    rw [hst, hev]
    rcases h2 with ⟨ha, hl⟩ | ⟨ha, hl⟩
    · rw [ha, List.nil_append, ← hl]
      exact ⟨ih1, ih2, ih3⟩
    · rw [ha]
      refine ⟨ih1, ?_, ?_⟩
      · show List.Chain' (· < ·) (wLast s w :: (wLast s w + 1) ::
          assignedIds w (runOps t (runOp t s op).1 rest).2)
        rw [List.chain'_cons]
        refine ⟨Nat.lt_succ_self _, ?_⟩
        rw [hl] at ih2
        exact ih2
      · show ((wLast s w + 1) ::
          assignedIds w (runOps t (runOp t s op).1 rest).2).getLastD
            (wLast s w) = wLast (runOps t (runOp t s op).1 rest).1 w
        rw [List.getLastD_cons]
        rw [hl] at ih3
        exact ih3

/-- C3: for every operation sequence run from a state satisfying the kernel
invariant, the ids assigned by one world are pairwise strictly increasing in
assignment order (each admitted object receives an id strictly greater than
every id that world assigned earlier), and the world's live table never
holds two entries under one id. -/
theorem c3_id_monotonic (t : Throws) (ops : List Op) (s : Sys) (w : Nat)
    (h : SysInv s) :
    List.Pairwise (· < ·) (assignedIds w (runOps t s ops).2) ∧
    ∀ ws, mapGet (runOps t s ops).1.worlds w = some ws →
      (mapKeys ws.objects).Nodup := by
  obtain ⟨h1, h2, _⟩ := runOps_chain t ops s w h
  refine ⟨?_, ?_⟩
  · have hp : List.Pairwise (· < ·)
        (wLast s w :: assignedIds w (runOps t s ops).2) :=
      List.chain'_iff_pairwise.mp h2
    exact (List.pairwise_cons.mp hp).2
  · intro ws hws
    exact (h1 w ws hws).1

theorem c3_id_monotonic_witness :
    List.Pairwise (· < ·) (assignedIds 1 (runOps noThrow wSys
      [Op.opAdd 1 5 none, Op.opAdd 1 6 none, Op.opRemove 1 5,
       Op.opPurge 1]).2) := by
  refine (c3_id_monotonic noThrow _ wSys 1 ?_).1
  intro w ws hg
  have hg' : (if 1 = w then some ({} : WorldState) else none) = some ws := hg
  by_cases h1 : 1 = w
  · rw [if_pos h1] at hg'
    obtain rfl := Option.some.inj hg'
    exact ⟨List.nodup_nil, fun i hi => absurd hi (List.not_mem_nil i)⟩
  · rw [if_neg h1] at hg'
    cases hg'

end ArcadeWorld
